import Mathlib

/-!
Verification of the availability baseline / pickup engine.

Shallow embedding of `src/availability_baseline.py` and `src/pickup_anomaly.py`.

Modelling conventions:
* Calendar dates are proleptic-Gregorian ordinals (`ℤ`, as produced by
  `datetime.date.toordinal`); date subtraction in days is integer subtraction
  and `datetime.date.weekday` is `(ordinal - 1) mod 7` (Monday = 0).
* Creation timestamps are modelled as `ℤ` (only their ordering is used).
* Python `dict`s are association lists (`List (κ × ν)`) with insertion-order
  semantics: updating an existing key keeps its position, a new key is
  appended at the end, exactly as Python dictionaries behave.
* Python floats are modelled as `ℚ`; every arithmetic fact proved here only
  involves values on which the reference computation is exact.
-/

/-- Lookup in an insertion-ordered association list (Python `dict.get`). -/
def alistLookup {κ ν : Type} [DecidableEq κ] : List (κ × ν) → κ → Option ν
  | [], _ => none
  | (k, v) :: rest, key => if k = key then some v else alistLookup rest key

/-- Assignment `d[key] = val` on an insertion-ordered association list: an
existing key keeps its position, a new key is appended at the end. -/
def alistSet {κ ν : Type} [DecidableEq κ] : List (κ × ν) → κ → ν → List (κ × ν)
  | [], key, val => [(key, val)]
  | (k, v) :: rest, key, val =>
      if k = key then (key, val) :: rest else (k, v) :: alistSet rest key val

/-- The update step `if cur is None or v > cur: d[k] = v` used to build the
per-key maxima dictionaries. -/
def maxStep {κ : Type} [DecidableEq κ] (m : List (κ × ℤ)) (k : κ) (v : ℤ) :
    List (κ × ℤ) :=
  match alistLookup m k with
  | none => alistSet m k v
  | some cur => if cur < v then alistSet m k v else m

/-- The update step `d[k] += v` on a `defaultdict(int)`. -/
def addStep {κ : Type} [DecidableEq κ] (m : List (κ × ℤ)) (k : κ) (v : ℤ) :
    List (κ × ℤ) :=
  match alistLookup m k with
  | none => alistSet m k v
  | some cur => alistSet m k (cur + v)

/-- The update step `d[k].append(v)` on a `defaultdict(list)`. -/
def appendStep {κ ν : Type} [DecidableEq κ] (m : List (κ × List ν)) (k : κ) (v : ν) :
    List (κ × List ν) :=
  alistSet m k ((alistLookup m k).getD [] ++ [v])

/-- Maximum of a list of integers (`some` of the max, `none` for `[]`). -/
def listMax? : List ℤ → Option ℤ
  | [] => none
  | x :: xs => some (xs.foldl max x)

/-- Sum of a list of integers, `none` for the empty list (used to phrase what a
`defaultdict(int)` accumulation holds at a key). -/
def listSum? : List ℤ → Option ℤ
  | [] => none
  | x :: xs => some (x + xs.sum)

/-- Combine an optional running maximum with a further optional maximum. -/
def optMax : Option ℤ → Option ℤ → Option ℤ
  | none, b => b
  | some a, none => some a
  | some a, some b => some (max a b)

/-- Combine an optional running sum with a further optional sum. -/
def optPlus : Option ℤ → Option ℤ → Option ℤ
  | none, b => b
  | some a, none => some a
  | some a, some b => some (a + b)

/-- Maximum of a nonempty integer list, with junk value `0` on `[]`
(Python's `max` raises there; every use below is on a nonempty list). -/
def listMaxD : List ℤ → ℤ
  | [] => 0
  | x :: xs => xs.foldl max x

/-- Insertion into an ascending-sorted list. -/
def insertAsc {α : Type} [LinearOrder α] (x : α) : List α → List α
  | [] => [x]
  | y :: ys => if x ≤ y then x :: y :: ys else y :: insertAsc x ys

/-- Ascending sort (model of Python `sorted`; the lists sorted in this
development have pairwise-distinct elements, so stability is irrelevant). -/
def sortAsc {α : Type} [LinearOrder α] (l : List α) : List α :=
  l.foldr insertAsc []

/-- Insertion into a descending-sorted list. -/
def insertDesc {α : Type} [LinearOrder α] (x : α) : List α → List α
  | [] => [x]
  | y :: ys => if y ≤ x then x :: y :: ys else y :: insertDesc x ys

/-- Descending sort (model of Python `sorted(..., reverse=True)` on lists of
pairwise-distinct dictionary keys). -/
def sortDesc {α : Type} [LinearOrder α] (l : List α) : List α :=
  l.foldr insertDesc []

/-- Consecutive pairs `(l[i-1], l[i])` of a list, the index pattern of
`for i in range(1, len(l))`. -/
def pairsOf {α : Type} : List α → List (α × α)
  | [] => []
  | [_] => []
  | a :: b :: rest => (a, b) :: pairsOf (b :: rest)

/-- Model of `statistics.median` on rationals: middle element of the sorted
list, or the mean of the two middle elements (junk value `0` on `[]`, where
Python raises; every call site below guards nonemptiness). -/
def medianQ (l : List ℚ) : ℚ :=
  let s := sortAsc l
  let n := s.length
  if n % 2 = 1 then s.getD (n / 2) 0
  else (s.getD (n / 2 - 1) 0 + s.getD (n / 2) 0) / 2

/-- `statistics.median` applied to a list of integers, as a rational. -/
def medianZ (l : List ℤ) : ℚ :=
  medianQ (l.map (fun z => (z : ℚ)))

/-- One raw snapshot row (`SnapshotRecord` in `availability_baseline.py`). -/
structure SnapshotRecord where
  check_in_date : ℤ
  parse_date : ℤ
  creation_dt : ℤ
  room_id : ℤ
  availability : ℤ
deriving DecidableEq, Repr

/-- `weekday_of` from `availability_baseline.py`: `datetime.date.weekday`
on ordinals, Monday = 0 .. Sunday = 6. -/
def weekday_of (d : ℤ) : ℤ := Int.emod (d - 1) 7

/-- The dictionary `latest_dt_by_parse` of
`select_latest_snapshot_per_parse_day`: maximum `creation_dt` per
`parse_date`, built by a forward pass over the records. -/
def latestByParse (records : List SnapshotRecord) : List (ℤ × ℤ) :=
  records.foldl (fun m r => maxStep m r.parse_date r.creation_dt) []

/-- `select_latest_snapshot_per_parse_day`: keep only records whose
`creation_dt` equals the maximum `creation_dt` of their `parse_date`. -/
def select_latest_snapshot_per_parse_day (records : List SnapshotRecord) :
    List SnapshotRecord :=
  let latest := latestByParse records
  records.filter (fun r => decide (alistLookup latest r.parse_date = some r.creation_dt))

/-- The dictionary `max_avail_by_key` of `aggregate_total_availability`:
maximum availability per `(check_in_date, parse_date, room_id)` triple. -/
def maxAvailByKey (records : List SnapshotRecord) : List ((ℤ × ℤ × ℤ) × ℤ) :=
  records.foldl
    (fun m r => maxStep m (r.check_in_date, r.parse_date, r.room_id) r.availability) []

/-- `aggregate_total_availability`: dedupe by room via `max_avail_by_key`,
then `totals[(check_in, parse_d)] += max(0, avail)` over its items. -/
def aggregate_total_availability (records : List SnapshotRecord) :
    List ((ℤ × ℤ) × ℤ) :=
  (maxAvailByKey records).foldl
    (fun m kv => addStep m (kv.1.1, kv.1.2.1) (max 0 kv.2)) []

/-- `to_lead_time_series`: reindex totals by `(check_in, lead)` with
`lead = check_in - parse_date`, keeping only `lead ≥ 0`. -/
def to_lead_time_series (totals : List ((ℤ × ℤ) × ℤ)) : List ((ℤ × ℤ) × ℤ) :=
  totals.foldl
    (fun m kv =>
      let lead := kv.1.1 - kv.1.2
      if 0 ≤ lead then alistSet m (kv.1.1, lead) kv.2 else m) []

/-- The `by_check_in` grouping of `compute_pickup_curve`:
`by_check_in[check_in][lead] = total`. -/
def byCheckIn (lt_series : List ((ℤ × ℤ) × ℤ)) : List (ℤ × List (ℤ × ℤ)) :=
  lt_series.foldl
    (fun m kv =>
      let inner := (alistLookup m kv.1.1).getD []
      alistSet m kv.1.1 (alistSet inner kv.1.2 kv.2)) []

/-- The delta-collection loop of `compute_pickup_curve` for one check-in date:
walk `leads_sorted` (descending) with `L = leads_sorted[i]`,
`prev_L = leads_sorted[i-1]`; if `prev_L == L + 1` and `L - 1` is a key of the
series, append `series[L-1] - series[L]` to `deltas[(L, weekday)]`.  (The
source's `series[L]` access cannot fail because `L` is drawn from the
series' keys; the embedding's skip on that `none` branch is unreachable.) -/
def deltaPass (wd : ℤ) (series : List (ℤ × ℤ)) (acc : List ((ℤ × ℤ) × List ℤ)) :
    List ((ℤ × ℤ) × List ℤ) :=
  (pairsOf (sortDesc (series.map (fun kv => kv.1)))).foldl
    (fun acc2 pr =>
      let prevL := pr.1
      let L := pr.2
      if prevL = L + 1 then
        match alistLookup series (L - 1), alistLookup series L with
        | some vprev, some vcur => appendStep acc2 (L, wd) (vprev - vcur)
        | _, _ => acc2
      else acc2)
    acc

/-- `compute_pickup_curve`: per check-in trajectory deltas, then the median
per `(lead, weekday)` bucket. -/
def compute_pickup_curve (lt_series : List ((ℤ × ℤ) × ℤ)) :
    List ((ℤ × ℤ) × ℚ) :=
  let deltas :=
    (byCheckIn lt_series).foldl
      (fun acc entry => deltaPass (weekday_of entry.1) entry.2 acc) []
  deltas.map (fun kv => (kv.1, medianZ kv.2))

/-- `AnomalyResult` from `availability_baseline.py`. -/
structure AnomalyResult where
  observed : ℤ
  baseline : ℚ
  scale : ℚ
  z_score : ℚ
  flag : String
deriving DecidableEq, Repr

/-- `evaluate_anomaly`: look up the `(lead, weekday)` bucket; if absent fall
back to the first bucket with the same lead, else to median 0, scale 1;
`z = (observed - med) / (scale if scale > 0 else 1)` and a strict-threshold
flag. -/
def evaluate_anomaly (observed : ℤ)
    (baseline : List ((ℤ × ℤ) × (ℚ × ℚ × ℕ))) (lead weekday : ℤ)
    (z_threshold : ℚ) : AnomalyResult :=
  let pick : ℚ × ℚ :=
    match alistLookup baseline (lead, weekday) with
    | some b => (b.1, b.2.1)
    | none =>
        match (baseline.filter (fun kv => decide (kv.1.1 = lead))).head? with
        | some c => (c.2.1, c.2.2.1)
        | none => (0, 1)
  let med := pick.1
  let scale := pick.2
  let z := ((observed : ℚ) - med) / (if 0 < scale then scale else 1)
  let flag :=
    if z < -z_threshold then "low"
    else if z_threshold < z then "high"
    else "normal"
  ⟨observed, med, scale, z, flag⟩

/-- The per-step delta of `predict_curve_from`: the `(L, weekday)` pickup
bucket, falling back to the median across all weekdays at lead `L`, else 0. -/
def pickupDelta (pickup : List ((ℤ × ℤ) × ℚ)) (weekday L : ℤ) : ℚ :=
  match alistLookup pickup (L, weekday) with
  | some d => d
  | none =>
      let alt := (pickup.filter (fun kv => decide (kv.1.1 = L))).map (fun kv => kv.2)
      match alt with
      | [] => 0
      | _ => medianQ alt

/-- The list `[s, s-1, ..., 1]` traversed by `for L in range(s, 0, -1)`. -/
def rangeDownAux : Nat → ℤ → List ℤ
  | 0, _ => []
  | n + 1, s => s :: rangeDownAux n (s - 1)

/-- Model of Python `range(s, 0, -1)` as a list. -/
def pyRangeDown (s : ℤ) : List ℤ := rangeDownAux s.toNat s

/-- One iteration of the roll-down loop of `predict_curve_from`: compute the
delta for lead `L`, append `(L-1, max(0, expected + delta))` to the curve and
update the running expected value. -/
def predictStep (pickup : List ((ℤ × ℤ) × ℚ)) (weekday : ℤ)
    (acc : List (ℤ × ℚ) × ℚ) (L : ℤ) : List (ℤ × ℚ) × ℚ :=
  let next := max 0 (acc.2 + pickupDelta pickup weekday L)
  (acc.1 ++ [(L - 1, next)], next)

/-- `predict_curve_from`: seed from the observed total at `start_lead`
(default 0), then roll down to lead 0 with `max(0, expected + delta)`. -/
def predict_curve_from (lt_series : List ((ℤ × ℤ) × ℤ))
    (pickup : List ((ℤ × ℤ) × ℚ)) (check_in start_lead : ℤ) :
    List (ℤ × ℚ) :=
  let expected0 : ℚ := ((alistLookup lt_series (check_in, start_lead)).getD 0 : ℤ)
  ((pyRangeDown start_lead).foldl (predictStep pickup (weekday_of check_in))
    ([(start_lead, expected0)], expected0)).1

/-- Python slice `l[-k:]` (the argument `k` may be any integer, as in
`progression[-min(len(progression), window_days):]` with an arbitrary
`window_days`): a negative start index counts from the end, clamped at 0;
a non-negative start index is clamped at `len(l)`. -/
def pyTailSlice {α : Type} (l : List α) (k : ℤ) : List α :=
  let s : ℤ := -k
  let start : ℤ := if s < 0 then max 0 ((l.length : ℤ) + s) else min (l.length : ℤ) s
  l.drop start.toNat

/-- Python slice `l[a:b]` for `0 ≤ a ≤ b` (the only shape used below,
`progression[max(0, i-4):i+1]`). -/
def pySlice {α : Type} (l : List α) (a b : ℤ) : List α :=
  (l.drop a.toNat).take (b - a).toNat

/-- The local `recent = progression[-min(len(progression), window_days):]`
of `compute_pickup_velocity`. -/
def recentOf (progression : List (ℤ × ℤ)) (window_days : ℤ) : List (ℤ × ℤ) :=
  pyTailSlice progression (min (progression.length : ℤ) window_days)

/-- The local `x_vals` of `compute_pickup_velocity`: elapsed days of each
point relative to the first point of the window. -/
def xValsOf (recent : List (ℤ × ℤ)) : List ℤ :=
  recent.map (fun q => q.1 - (recent.headD (0, 0)).1)

/-- The local `y_vals` of `compute_pickup_velocity`: the window's totals. -/
def yValsOf (recent : List (ℤ × ℤ)) : List ℤ :=
  recent.map (fun q => q.2)

/-- The local `x_mean` of `compute_pickup_velocity`. -/
def xMeanOf (recent : List (ℤ × ℤ)) : ℚ :=
  ((xValsOf recent).sum : ℤ) / (recent.length : ℚ)

/-- The local `y_mean` of `compute_pickup_velocity`. -/
def yMeanOf (recent : List (ℤ × ℤ)) : ℚ :=
  ((yValsOf recent).sum : ℤ) / (recent.length : ℚ)

/-- The OLS numerator `sum((x_i - x_mean) * (y_i - y_mean))`. -/
def slopeNum (recent : List (ℤ × ℤ)) : ℚ :=
  (((xValsOf recent).zip (yValsOf recent)).map
    (fun q => ((q.1 : ℚ) - xMeanOf recent) * ((q.2 : ℚ) - yMeanOf recent))).sum

/-- The OLS denominator `sum((x_i - x_mean) ** 2)`. -/
def slopeDen (recent : List (ℤ × ℤ)) : ℚ :=
  ((xValsOf recent).map (fun x : ℤ => ((x : ℚ) - xMeanOf recent) ^ 2)).sum

/-- `compute_pickup_velocity` from `pickup_anomaly.py`: the OLS slope of
total availability against elapsed days over the trailing window of at most
`window_days` points, with early-return guards mirroring the source
(`len(progression) < 2`, `len(recent) < 2`, `len(set(x_vals)) < 2`, and a
zero denominator all yield `0.0`). -/
def compute_pickup_velocity (progression : List (ℤ × ℤ)) (window_days : ℤ) : ℚ :=
  if progression.length < 2 then 0
  else
    let recent := recentOf progression window_days
    if recent.length < 2 then 0
    else if (xValsOf recent).dedup.length < 2 then 0
    else if slopeDen recent ≠ 0 then slopeNum recent / slopeDen recent
    else 0

/-- The current-velocity computation performed by `analyze_pickup_issues`
(`pickup_anomaly.py`, line 150): `compute_pickup_velocity(progression,
window_days=7)`.  The rest of `analyze_pickup_issues` (trend label,
volatility via a floating-point square root, issue flags) plays no role in
the claims about the velocity window. -/
def analyzeRecentVelocity (progression : List (ℤ × ℤ)) : ℚ :=
  compute_pickup_velocity progression 7

/-- The trailing window of at most the `k` most recent progression points
including the current (last) one; with `k = 5` this is the window
`progression[max(0, i-4):i+1]` the training pass feeds to
`compute_pickup_velocity` at the final index `i = len - 1`. -/
def windowLast (k : ℕ) (progression : List (ℤ × ℤ)) : List (ℤ × ℤ) :=
  pyTailSlice progression (min (progression.length : ℤ) (k : ℤ))

/-- Minimum of a nonempty integer list (junk `0` on `[]`, never used). -/
def listMinD : List ℤ → ℤ
  | [] => 0
  | x :: xs => xs.foldl min x

/-- Minimum of a nonempty rational list (junk `0` on `[]`, never used). -/
def listMinDQ : List ℚ → ℚ
  | [] => 0
  | x :: xs => xs.foldl min x

/-- Maximum of a nonempty rational list (junk `0` on `[]`, never used). -/
def listMaxDQ : List ℚ → ℚ
  | [] => 0
  | x :: xs => xs.foldl max x

/-- `statistics.quantiles(data, n=4)` (the default exclusive method) as the
triple `(result[0], result[1], result[2])`: sort the data, and for
`i ∈ {1,2,3}` interpolate between `data[j-1]` and `data[j]` where
`j, delta = divmod(i * (len + 1), 4)` with `j` clamped to `[1, len-1]`.
Only called on lists of length ≥ 4 (shorter lists use min/max instead). -/
def quantilesExc4 (vals : List ℚ) : ℚ × ℚ × ℚ :=
  let data := sortAsc vals
  let ld := data.length
  let qi : ℕ → ℚ := fun i =>
    let j0 := (i * (ld + 1)) / 4
    let delta := (i * (ld + 1)) % 4
    let j := if j0 < 1 then 1 else if ld - 1 < j0 then ld - 1 else j0
    ((data.getD (j - 1) 0) * ((4 : ℚ) - (delta : ℕ)) + (data.getD j 0) * (delta : ℕ)) / 4
  (qi 1, qi 2, qi 3)

/-- The `(median, p25, p75)` summary published for a velocity bucket:
quartile interpolation when at least 4 samples exist, else min/max. -/
def bucketStatsQ (vals : List ℚ) : ℚ × ℚ × ℚ :=
  (medianQ vals,
   if 4 ≤ vals.length then (quantilesExc4 vals).1 else listMinDQ vals,
   if 4 ≤ vals.length then (quantilesExc4 vals).2.2 else listMaxDQ vals)

/-- The `(median, p25, p75)` summary published for an availability bucket. -/
def bucketStatsZ (vals : List ℤ) : ℚ × ℚ × ℚ :=
  bucketStatsQ (vals.map (fun z => (z : ℚ)))

/-- The nested grouping `by_pd[parse_date][room_id].append(availability)`
used by `build_historical_baselines` for one check-in date. -/
def byParseDay (ci_records : List SnapshotRecord) : List (ℤ × List (ℤ × List ℤ)) :=
  ci_records.foldl
    (fun m r =>
      let inner := (alistLookup m r.parse_date).getD []
      alistSet m r.parse_date
        (alistSet inner r.room_id ((alistLookup inner r.room_id).getD [] ++ [r.availability])))
    []

/-- The progression of one check-in date in `build_historical_baselines`:
for each parse day in ascending order, the sum over rooms of the maximum
availability seen (note: no clamping to 0 here, unlike
`aggregate_total_availability`). -/
def progressionOf (ci_records : List SnapshotRecord) : List (ℤ × ℤ) :=
  let by_pd := byParseDay ci_records
  (sortAsc (by_pd.map (fun kv => kv.1))).map
    (fun pd =>
      (pd, (((alistLookup by_pd pd).getD []).map (fun room => listMaxD room.2)).sum))

/-- The per-check-in pattern-extraction loop of `build_historical_baselines`:
for each progression position `i` with lead `= ci - pd > 0`, append the
trailing-window velocity (when `i ≥ 2`) to the `(lead // 7, weekday)`
velocity bucket, and always append the availability to the matching
availability bucket. -/
def extractPatterns (ci : ℤ) (progression : List (ℤ × ℤ))
    (acc : List ((ℤ × ℤ) × List ℚ) × List ((ℤ × ℤ) × List ℤ)) :
    List ((ℤ × ℤ) × List ℚ) × List ((ℤ × ℤ) × List ℤ) :=
  let wd := weekday_of ci
  progression.enum.foldl
    (fun acc2 ipair =>
      let i := ipair.1
      let pd := ipair.2.1
      let avail := ipair.2.2
      let lead := ci - pd
      if lead ≤ 0 then acc2
      else
        let acc3 :=
          if 2 ≤ i then
            let window := pySlice progression (max 0 ((i : ℤ) - 4)) ((i : ℤ) + 1)
            let velocity := compute_pickup_velocity window 7
            (appendStep acc2.1 (Int.ediv lead 7, wd) velocity, acc2.2)
          else acc2
        (acc3.1, appendStep acc3.2 (Int.ediv lead 7, wd) avail))
    acc

/-- The whole body of `build_historical_baselines` applied to the already
filtered training records: group by check-in date, keep dates with ≥ 10
records and ≥ 5 progression points, extract velocity/availability patterns,
then publish `(median, p25, p75)` for every bucket with ≥ 3 samples. -/
def buildFromTrain (train_records : List SnapshotRecord) :
    List ((ℤ × ℤ) × (ℚ × ℚ × ℚ)) × List ((ℤ × ℤ) × (ℚ × ℚ × ℚ)) :=
  let by_checkin : List (ℤ × List SnapshotRecord) :=
    train_records.foldl
      (fun m r => alistSet m r.check_in_date ((alistLookup m r.check_in_date).getD [] ++ [r]))
      []
  let collected :=
    by_checkin.foldl
      (fun acc entry =>
        if entry.2.length < 10 then acc
        else
          let progression := progressionOf entry.2
          if progression.length < 5 then acc
          else extractPatterns entry.1 progression acc)
      ([], [])
  let velocity_baselines :=
    collected.1.foldl
      (fun out kv => if 3 ≤ kv.2.length then out ++ [(kv.1, bucketStatsQ kv.2)] else out) []
  let avail_baselines :=
    collected.2.foldl
      (fun out kv => if 3 ≤ kv.2.length then out ++ [(kv.1, bucketStatsZ kv.2)] else out) []
  (velocity_baselines, avail_baselines)

/-- `build_historical_baselines`: restrict to records observed strictly
before the cutoff date, then run the training body on them. -/
def build_historical_baselines (records : List SnapshotRecord) (cutoff_date : ℤ) :
    List ((ℤ × ℤ) × (ℚ × ℚ × ℚ)) × List ((ℤ × ℤ) × (ℚ × ℚ × ℚ)) :=
  buildFromTrain (records.filter (fun r => decide (r.parse_date < cutoff_date)))

/-- The creation timestamps of the records of one observation date. -/
def creationsOf (records : List SnapshotRecord) (p : ℤ) : List ℤ :=
  (records.filter (fun r => decide (r.parse_date = p))).map (fun r => r.creation_dt)

/-- The rooms appearing in records of one (check-in date, observation date)
cell, as a finite set. -/
def roomsFinset (records : List SnapshotRecord) (ci pd : ℤ) : Finset ℤ :=
  ((records.filter (fun r => decide (r.check_in_date = ci ∧ r.parse_date = pd))).map
    (fun r => r.room_id)).toFinset

/-- The maximum availability seen among the records of one
(check-in date, observation date, room) triple (junk 0 when there are none). -/
def maxSeen (records : List SnapshotRecord) (ci pd rm : ℤ) : ℤ :=
  (listMax? ((records.filter
      (fun r => decide (r.check_in_date = ci ∧ r.parse_date = pd ∧ r.room_id = rm))).map
    (fun r => r.availability))).getD 0

/-- The ordinal of the calendar date 2025-05-13 (a Tuesday, weekday 1). -/
def d20250513 : ℤ := 739384

/-- The records of the spec's end-to-end example: check-in 2025-05-13, two
rooms per observation day, room totals 10/9/7/5 at leads 3/2/1/0 (split as in
the repository's test fixture: room 1 gets `total // 2`, room 2 the rest). -/
def exampleRecords : List SnapshotRecord :=
  [⟨d20250513, d20250513 - 3, 0, 1, 5⟩, ⟨d20250513, d20250513 - 3, 0, 2, 5⟩,
   ⟨d20250513, d20250513 - 2, 0, 1, 4⟩, ⟨d20250513, d20250513 - 2, 0, 2, 5⟩,
   ⟨d20250513, d20250513 - 1, 0, 1, 3⟩, ⟨d20250513, d20250513 - 1, 0, 2, 4⟩,
   ⟨d20250513, d20250513, 0, 1, 2⟩, ⟨d20250513, d20250513, 0, 2, 3⟩]

/-- The example's lead-time series. -/
def exampleLt : List ((ℤ × ℤ) × ℤ) :=
  to_lead_time_series (aggregate_total_availability exampleRecords)

/-- The example's pickup table. -/
def examplePickup : List ((ℤ × ℤ) × ℚ) := compute_pickup_curve exampleLt

/-- The 6-point progression (one observation per day, totals 96,0,0,0,0,0)
separating the 7-point window from the 5-point training window. -/
def exampleProgression : List (ℤ × ℤ) :=
  [(0, 96), (1, 0), (2, 0), (3, 0), (4, 0), (5, 0)]

/-- The keys of an association list, in order. -/
def alistKeys {κ ν : Type} (m : List (κ × ν)) : List κ := m.map Prod.fst

@[simp] lemma alistKeys_nil {κ ν : Type} : alistKeys ([] : List (κ × ν)) = [] := rfl

@[simp] lemma alistKeys_cons {κ ν : Type} (p : κ × ν) (l : List (κ × ν)) :
    alistKeys (p :: l) = p.1 :: alistKeys l := rfl

lemma alistLookup_alistSet {κ ν : Type} [DecidableEq κ] :
    ∀ (m : List (κ × ν)) (k : κ) (v : ν) (k' : κ),
      alistLookup (alistSet m k v) k' = if k = k' then some v else alistLookup m k'
  | [], k, v, k' => by simp [alistSet, alistLookup]
  | (k0, v0) :: rest, k, v, k' => by
      by_cases h0 : k0 = k
      · subst h0
        simp only [alistSet, if_pos rfl, alistLookup]
        by_cases h1 : k0 = k'
        · simp [h1]
        · simp [h1]
      · simp only [alistSet, if_neg h0, alistLookup]
        by_cases h1 : k0 = k'
        · subst h1
          have : ¬ k = k0 := fun h => h0 h.symm
          simp [this]
        · simp [h1, alistLookup_alistSet rest k v k']

lemma alistLookup_eq_none_iff {κ ν : Type} [DecidableEq κ] :
    ∀ (m : List (κ × ν)) (k : κ), alistLookup m k = none ↔ k ∉ alistKeys m
  | [], k => by simp [alistLookup, alistKeys]
  | (k0, v0) :: rest, k => by
      by_cases h0 : k0 = k
      · simp [alistLookup, alistKeys, h0]
      · simp [alistLookup, alistKeys, h0, alistLookup_eq_none_iff rest k, Ne.symm h0]

lemma alistKeys_alistSet {κ ν : Type} [DecidableEq κ] :
    ∀ (m : List (κ × ν)) (k : κ) (v : ν),
      alistKeys (alistSet m k v) = if k ∈ alistKeys m then alistKeys m else alistKeys m ++ [k]
  | [], k, v => by simp [alistSet, alistKeys]
  | (k0, v0) :: rest, k, v => by
      by_cases h0 : k0 = k
      · subst h0
        simp [alistSet, alistKeys]
      · simp only [alistSet, if_neg h0, alistKeys_cons]
        rw [alistKeys_alistSet rest k v]
        by_cases h1 : k ∈ alistKeys rest
        · simp [h1, List.mem_cons, Ne.symm h0]
        · simp [h1, List.mem_cons, Ne.symm h0]

lemma alistKeys_nodup_alistSet {κ ν : Type} [DecidableEq κ] (m : List (κ × ν)) (k : κ) (v : ν)
    (h : (alistKeys m).Nodup) : (alistKeys (alistSet m k v)).Nodup := by
  rw [alistKeys_alistSet]
  by_cases h1 : k ∈ alistKeys m
  · simpa [h1] using h
  · simp only [h1, if_false]
    rw [List.nodup_append]
    exact ⟨h, List.nodup_singleton k, by simpa using fun hk => h1 hk⟩

lemma alistKeys_nodup_maxStep {κ : Type} [DecidableEq κ] (m : List (κ × ℤ)) (k : κ) (v : ℤ)
    (h : (alistKeys m).Nodup) : (alistKeys (maxStep m k v)).Nodup := by
  unfold maxStep
  cases alistLookup m k with
  | none => exact alistKeys_nodup_alistSet m k v h
  | some cur =>
      by_cases hc : cur < v
      · simpa [hc] using alistKeys_nodup_alistSet m k v h
      · simpa [hc] using h

lemma mem_alistKeys_maxStep {κ : Type} [DecidableEq κ] (m : List (κ × ℤ)) (k : κ) (v : ℤ)
    (k' : κ) : k' ∈ alistKeys (maxStep m k v) ↔ k' ∈ alistKeys m ∨ k' = k := by
  unfold maxStep
  cases hm : alistLookup m k with
  | none =>
      rw [alistKeys_alistSet]
      have : k ∉ alistKeys m := (alistLookup_eq_none_iff m k).mp hm
      simp [this]
  | some cur =>
      by_cases hc : cur < v
      · simp only [hc, if_pos]
        rw [alistKeys_alistSet]
        have hk : k ∈ alistKeys m := by
          by_contra hk
          rw [← alistLookup_eq_none_iff m k] at hk
          rw [hm] at hk
          cases hk
        constructor
        · intro h
          exact Or.inl (by simpa [hk] using h)
        · intro h
          rcases h with h | h
          · simpa [hk] using h
          · subst h
            simp [hk]
      · simp only [hc, if_neg, not_false_iff]
        constructor
        · exact fun h => Or.inl h
        · intro h
          rcases h with h | h
          · exact h
          · subst h
            by_contra hk
            rw [← alistLookup_eq_none_iff m k'] at hk
            rw [hm] at hk
            cases hk

lemma optMax_none_right (a : Option ℤ) : optMax a none = a := by
  cases a <;> rfl

lemma optMax_assoc (a b c : Option ℤ) : optMax (optMax a b) c = optMax a (optMax b c) := by
  cases a <;> cases b <;> cases c <;> simp [optMax, max_assoc]

lemma foldl_max_max (xs : List ℤ) : ∀ (a b : ℤ), xs.foldl max (max a b) = max a (xs.foldl max b) := by
  induction xs with
  | nil => intro a b; rfl
  | cons x xs ih =>
      intro a b
      simp only [List.foldl_cons, max_assoc]
      exact ih a (max b x)

lemma listMax?_cons (v : ℤ) (l : List ℤ) : listMax? (v :: l) = optMax (some v) (listMax? l) := by
  cases l with
  | nil => rfl
  | cons x xs =>
      simp only [listMax?, optMax, List.foldl_cons]
      rw [foldl_max_max]

lemma optPlus_none_right (a : Option ℤ) : optPlus a none = a := by
  cases a <;> rfl

lemma optPlus_assoc (a b c : Option ℤ) : optPlus (optPlus a b) c = optPlus a (optPlus b c) := by
  cases a <;> cases b <;> cases c <;> simp [optPlus, add_assoc]

lemma listSum?_cons (v : ℤ) (l : List ℤ) : listSum? (v :: l) = optPlus (some v) (listSum? l) := by
  cases l with
  | nil => simp [listSum?, optPlus]
  | cons x xs => simp [listSum?, optPlus, add_assoc]

lemma alistLookup_maxStep {κ : Type} [DecidableEq κ] (m : List (κ × ℤ)) (k : κ) (v : ℤ)
    (k' : κ) :
    alistLookup (maxStep m k v) k' =
      if k = k' then optMax (alistLookup m k) (some v) else alistLookup m k' := by
  unfold maxStep
  cases hm : alistLookup m k with
  | none =>
      rw [alistLookup_alistSet]
      by_cases h : k = k'
      · simp [h, optMax]
      · simp [h]
  | some cur =>
      by_cases hc : cur < v
      · simp only [hc, if_pos]
        rw [alistLookup_alistSet]
        by_cases h : k = k'
        · subst h
          simp [optMax, max_eq_right (le_of_lt hc)]
        · simp [h]
      · simp only [hc, if_neg, not_false_iff]
        by_cases h : k = k'
        · subst h
          simp [hm, optMax, max_eq_left (not_lt.mp hc)]
        · simp [h]

lemma alistLookup_foldl_maxStep {β κ : Type} [DecidableEq κ] (fk : β → κ) (fv : β → ℤ) :
    ∀ (qs : List β) (m : List (κ × ℤ)) (k : κ),
      alistLookup (qs.foldl (fun acc q => maxStep acc (fk q) (fv q)) m) k =
        optMax (alistLookup m k) (listMax? ((qs.filter (fun q => decide (fk q = k))).map fv))
  | [], m, k => by simp [listMax?, optMax_none_right]
  | q :: qs, m, k => by
      simp only [List.foldl_cons]
      rw [alistLookup_foldl_maxStep fk fv qs (maxStep m (fk q) (fv q)) k,
        alistLookup_maxStep m (fk q) (fv q) k]
      by_cases h : fk q = k
      · simp only [h, if_pos, List.filter_cons, decide_eq_true_eq, decide_True, List.map_cons]
        rw [listMax?_cons, ← optMax_assoc]
      · simp only [List.filter_cons, decide_eq_true_eq, h, if_neg, decide_False]
        simp [h]

lemma alistLookup_addStep {κ : Type} [DecidableEq κ] (m : List (κ × ℤ)) (k : κ) (v : ℤ)
    (k' : κ) :
    alistLookup (addStep m k v) k' =
      if k = k' then optPlus (alistLookup m k) (some v) else alistLookup m k' := by
  unfold addStep
  cases hm : alistLookup m k with
  | none =>
      rw [alistLookup_alistSet]
      by_cases h : k = k'
      · simp [h, optPlus]
      · simp [h]
  | some cur =>
      rw [alistLookup_alistSet]
      by_cases h : k = k'
      · simp [h, optPlus]
      · simp [h]

lemma alistLookup_foldl_addStep {β κ : Type} [DecidableEq κ] (fk : β → κ) (fv : β → ℤ) :
    ∀ (qs : List β) (m : List (κ × ℤ)) (k : κ),
      alistLookup (qs.foldl (fun acc q => addStep acc (fk q) (fv q)) m) k =
        optPlus (alistLookup m k) (listSum? ((qs.filter (fun q => decide (fk q = k))).map fv))
  | [], m, k => by simp [listSum?, optPlus_none_right]
  | q :: qs, m, k => by
      simp only [List.foldl_cons]
      rw [alistLookup_foldl_addStep fk fv qs (addStep m (fk q) (fv q)) k,
        alistLookup_addStep m (fk q) (fv q) k]
      by_cases h : fk q = k
      · simp only [h, if_pos, List.filter_cons, decide_eq_true_eq, decide_True, List.map_cons]
        rw [listSum?_cons, ← optPlus_assoc]
      · simp only [List.filter_cons, decide_eq_true_eq, h, if_neg, decide_False]
        simp [h]

lemma alistKeys_nodup_foldl_maxStep {β κ : Type} [DecidableEq κ] (fk : β → κ) (fv : β → ℤ) :
    ∀ (qs : List β) (m : List (κ × ℤ)), (alistKeys m).Nodup →
      (alistKeys (qs.foldl (fun acc q => maxStep acc (fk q) (fv q)) m)).Nodup
  | [], m, h => h
  | q :: qs, m, h => by
      simp only [List.foldl_cons]
      exact alistKeys_nodup_foldl_maxStep fk fv qs _ (alistKeys_nodup_maxStep m _ _ h)

lemma mem_alistKeys_foldl_maxStep {β κ : Type} [DecidableEq κ] (fk : β → κ) (fv : β → ℤ) :
    ∀ (qs : List β) (m : List (κ × ℤ)) (k : κ),
      k ∈ alistKeys (qs.foldl (fun acc q => maxStep acc (fk q) (fv q)) m) ↔
        k ∈ alistKeys m ∨ ∃ q ∈ qs, fk q = k
  | [], m, k => by simp
  | q :: qs, m, k => by
      simp only [List.foldl_cons]
      rw [mem_alistKeys_foldl_maxStep fk fv qs _ k, mem_alistKeys_maxStep]
      constructor
      · rintro ((h | h) | h)
        · exact Or.inl h
        · exact Or.inr ⟨q, List.mem_cons_self q qs, h.symm ▸ rfl⟩
        · rcases h with ⟨q', hq', hfk⟩
          exact Or.inr ⟨q', List.mem_cons_of_mem q hq', hfk⟩
      · rintro (h | ⟨q', hq', hfk⟩)
        · exact Or.inl (Or.inl h)
        · rcases List.mem_cons.mp hq' with h | h
          · subst h
            exact Or.inl (Or.inr hfk.symm)
          · exact Or.inr ⟨q', h, hfk⟩

lemma mem_alist_of_nodup_lookup {κ ν : Type} [DecidableEq κ] :
    ∀ (m : List (κ × ν)) (k : κ) (v : ν), (alistKeys m).Nodup → (k, v) ∈ m →
      alistLookup m k = some v
  | [], k, v, _, hm => by cases hm
  | (k0, v0) :: rest, k, v, hnd, hm => by
      rcases List.mem_cons.mp hm with h | h
      · cases h
        simp [alistLookup]
      · have hk : k ∈ alistKeys rest := List.mem_map_of_mem Prod.fst h
        rw [alistKeys_cons] at hnd
        have hnd' := List.nodup_cons.mp hnd
        have hne : k0 ≠ k := fun he => hnd'.1 (he ▸ hk)
        simp only [alistLookup, if_neg hne]
        exact mem_alist_of_nodup_lookup rest k v hnd'.2 h

lemma foldl_max_const : ∀ (xs : List ℤ) (c : ℤ), (∀ x ∈ xs, x = c) → xs.foldl max c = c
  | [], c, _ => rfl
  | x :: xs, c, h => by
      have hx : x = c := h x (List.mem_cons_self x xs)
      subst hx
      simp only [List.foldl_cons, max_self]
      exact foldl_max_const xs x (fun y hy => h y (List.mem_cons_of_mem x hy))

lemma listMax?_const (xs : List ℤ) (c : ℤ) (h : ∀ x ∈ xs, x = c) (hne : xs ≠ []) :
    listMax? xs = some c := by
  cases xs with
  | nil => cases hne rfl
  | cons x xs =>
      have hx : x = c := h x (List.mem_cons_self x xs)
      subst hx
      simp only [listMax?, Option.some.injEq]
      exact foldl_max_const xs x (fun y hy => h y (List.mem_cons_of_mem x hy))

lemma alistLookup_some_mem {κ ν : Type} [DecidableEq κ] :
    ∀ (m : List (κ × ν)) (k : κ) (v : ν), alistLookup m k = some v → (k, v) ∈ m
  | [], _, _, h => by cases h
  | (k0, v0) :: rest, k, v, h => by
      by_cases h0 : k0 = k
      · subst h0
        have hv : v0 = v := by simpa [alistLookup] using h
        subst hv
        exact List.mem_cons_self _ _
      · simp only [alistLookup, if_neg h0] at h
        exact List.mem_cons_of_mem _ (alistLookup_some_mem rest k v h)

lemma latestByParse_lookup (records : List SnapshotRecord) (p : ℤ) :
    alistLookup (latestByParse records) p = listMax? (creationsOf records p) := by
  have h := alistLookup_foldl_maxStep (fun r : SnapshotRecord => r.parse_date)
    (fun r : SnapshotRecord => r.creation_dt) records [] p
  simpa [latestByParse, creationsOf, alistLookup, optMax] using h

lemma mem_select_latest_iff (records : List SnapshotRecord) (r : SnapshotRecord) :
    r ∈ select_latest_snapshot_per_parse_day records ↔
      r ∈ records ∧ alistLookup (latestByParse records) r.parse_date = some r.creation_dt := by
  simp [select_latest_snapshot_per_parse_day, List.mem_filter]

/-- Claim C6: `select_latest_snapshot_per_parse_day` is idempotent, every kept
record's `creation_dt` is the maximum `creation_dt` among the input records
sharing its `parse_date`, and all kept records of one observation date share a
single `creation_dt` value. -/
theorem select_latest_snapshot_idempotent_max (records : List SnapshotRecord) :
    (∀ r ∈ select_latest_snapshot_per_parse_day records,
        some r.creation_dt = listMax? (creationsOf records r.parse_date)) ∧
    select_latest_snapshot_per_parse_day (select_latest_snapshot_per_parse_day records) =
      select_latest_snapshot_per_parse_day records ∧
    (∀ r ∈ select_latest_snapshot_per_parse_day records,
      ∀ s ∈ select_latest_snapshot_per_parse_day records,
        r.parse_date = s.parse_date → r.creation_dt = s.creation_dt) := by
  have hmem : ∀ r ∈ select_latest_snapshot_per_parse_day records,
      alistLookup (latestByParse records) r.parse_date = some r.creation_dt :=
    fun r hr => ((mem_select_latest_iff records r).mp hr).2
  have part1 : ∀ r ∈ select_latest_snapshot_per_parse_day records,
      some r.creation_dt = listMax? (creationsOf records r.parse_date) := by
    intro r hr
    rw [← latestByParse_lookup]
    exact (hmem r hr).symm
  have part3 : ∀ r ∈ select_latest_snapshot_per_parse_day records,
      ∀ s ∈ select_latest_snapshot_per_parse_day records,
        r.parse_date = s.parse_date → r.creation_dt = s.creation_dt := by
    intro r hr s hs hp
    have h1 := hmem r hr
    have h2 := hmem s hs
    rw [hp] at h1
    rw [h1] at h2
    exact (Option.some.injEq _ _ ▸ h2 : _)
  refine ⟨part1, ?_, part3⟩
  show List.filter _ _ = _
  apply List.filter_eq_self.mpr
  intro a ha
  apply decide_eq_true
  rw [latestByParse_lookup]
  apply listMax?_const
  · intro x hx
    rcases List.mem_map.mp hx with ⟨s, hs, hsx⟩
    rcases List.mem_filter.mp hs with ⟨hsel, hpd⟩
    have hpd' : s.parse_date = a.parse_date := of_decide_eq_true hpd
    rw [← hsx]
    exact part3 s hsel a ha hpd'
  · apply List.ne_nil_of_mem
    show a.creation_dt ∈ _
    apply List.mem_map.mpr
    refine ⟨a, List.mem_filter.mpr ⟨ha, ?_⟩, rfl⟩
    simp

lemma predict_foldl_nonneg (pickup : List ((ℤ × ℤ) × ℚ)) (wd : ℤ) :
    ∀ (Ls : List ℤ) (acc : List (ℤ × ℚ) × ℚ), (∀ p ∈ acc.1, 0 ≤ p.2) →
      ∀ p ∈ (Ls.foldl (predictStep pickup wd) acc).1, 0 ≤ p.2
  | [], acc, hacc => hacc
  | L :: Ls, acc, hacc => by
      simp only [List.foldl_cons]
      apply predict_foldl_nonneg pickup wd Ls
      intro p hp
      rcases List.mem_append.mp hp with h | h
      · exact hacc p h
      · rcases List.mem_singleton.mp h with rfl
        exact le_max_left 0 _

/-- Claim C9: for a lead-time series with non-negative totals, every expected
value emitted by `predict_curve_from` is non-negative, whatever the pickup
deltas are. -/
theorem predict_curve_from_nonneg (lt_series : List ((ℤ × ℤ) × ℤ))
    (pickup : List ((ℤ × ℤ) × ℚ)) (check_in start_lead : ℤ)
    (hlt : ∀ kv ∈ lt_series, 0 ≤ kv.2) :
    ∀ p ∈ predict_curve_from lt_series pickup check_in start_lead, 0 ≤ p.2 := by
  intro p hp
  have hseed : (0 : ℚ) ≤ ((alistLookup lt_series (check_in, start_lead)).getD 0 : ℤ) := by
    cases hv : alistLookup lt_series (check_in, start_lead) with
    | none => simp
    | some v =>
        have := hlt _ (alistLookup_some_mem lt_series _ v hv)
        simpa using (Int.cast_nonneg.mpr this : (0:ℚ) ≤ (v : ℚ))
  refine predict_foldl_nonneg pickup (weekday_of check_in) (pyRangeDown start_lead) _ ?_ p hp
  intro q hq
  rcases List.mem_singleton.mp hq with rfl
  exact hseed

lemma dedup_const {α : Type} [DecidableEq α] :
    ∀ (xs : List α) (c : α), (∀ x ∈ xs, x = c) → xs ≠ [] → xs.dedup = [c]
  | [], c, _, hne => absurd rfl hne
  | x :: xs, c, h, _ => by
      have hx : x = c := h x (List.mem_cons_self x xs)
      subst hx
      cases hxs : xs with
      | nil => simp [List.dedup]
      | cons y ys =>
          have hy : x ∈ xs := by
            rw [hxs]
            have : y = x := by
              have := h y (by rw [hxs]; exact List.mem_cons_of_mem x (List.mem_cons_self y ys))
              exact this
            rw [this]
            exact List.mem_cons_self _ _
          rw [← hxs, List.dedup_cons_of_mem hy]
          exact dedup_const xs x (fun z hz => h z (List.mem_cons_of_mem x hz)) (by simp [hxs])

lemma list_sum_nonneg_q : ∀ (l : List ℚ), (∀ x ∈ l, 0 ≤ x) → 0 ≤ l.sum
  | [], _ => le_refl 0
  | x :: xs, h => by
      simp only [List.sum_cons]
      have h1 := h x (List.mem_cons_self x xs)
      have h2 := list_sum_nonneg_q xs (fun y hy => h y (List.mem_cons_of_mem x hy))
      linarith

lemma list_sum_pos_q : ∀ (l : List ℚ), (∀ x ∈ l, 0 ≤ x) → ∀ y ∈ l, 0 < y → 0 < l.sum
  | [], _, y, hy, _ => by cases hy
  | x :: xs, h, y, hy, hypos => by
      simp only [List.sum_cons]
      rcases List.mem_cons.mp hy with rfl | hmem
      · have := list_sum_nonneg_q xs (fun z hz => h z (List.mem_cons_of_mem y hz))
        linarith
      · have h1 := h x (List.mem_cons_self x xs)
        have h2 := list_sum_pos_q xs (fun z hz => h z (List.mem_cons_of_mem x hz)) y hmem hypos
        linarith

lemma headD_mem {α : Type} (l : List α) (d : α) (h : l ≠ []) : l.headD d ∈ l := by
  cases l with
  | nil => cases h rfl
  | cons x xs => exact List.mem_cons_self x xs

/-- Claim C10: `compute_pickup_velocity` returns 0 whenever the progression
has fewer than two points or all points of the selected trailing window share
one observation date; otherwise the OLS denominator is provably nonzero, so
the slope's division is never a division by zero. -/
theorem compute_pickup_velocity_guards (progression : List (ℤ × ℤ)) (window_days : ℤ) :
    (progression.length < 2 → compute_pickup_velocity progression window_days = 0) ∧
    ((∀ a ∈ recentOf progression window_days, ∀ b ∈ recentOf progression window_days,
        a.1 = b.1) → compute_pickup_velocity progression window_days = 0) ∧
    ((∃ a ∈ recentOf progression window_days, ∃ b ∈ recentOf progression window_days,
        a.1 ≠ b.1) → slopeDen (recentOf progression window_days) ≠ 0) := by
  refine ⟨?_, ?_, ?_⟩
  · intro h
    simp [compute_pickup_velocity, h]
  · intro hsame
    by_cases h1 : progression.length < 2
    · simp [compute_pickup_velocity, h1]
    · rw [compute_pickup_velocity, if_neg h1]
      by_cases h2 : (recentOf progression window_days).length < 2
      · simp [h2]
      · simp only [h2, if_neg, not_false_iff]
        have hne : recentOf progression window_days ≠ [] := by
          intro he
          rw [he] at h2
          simp at h2
        have hdedup : (xValsOf (recentOf progression window_days)).dedup = [0] := by
          apply dedup_const
          · intro x hx
            rcases List.mem_map.mp hx with ⟨q, hq, hqx⟩
            have hd0 : ((recentOf progression window_days).headD (0, 0)).1 = q.1 :=
              hsame _ (headD_mem _ _ hne) q hq
            rw [← hqx, ← hd0, sub_self]
          · intro he
            rw [xValsOf] at he
            simp only [List.map_eq_nil_iff] at he
            exact hne he
        rw [if_pos (by rw [hdedup]; simp)]
  · rintro ⟨a, ha, b, hb, hab⟩
    set recent := recentOf progression window_days with hrec
    have hd0a : (a.1 - (recent.headD (0, 0)).1 : ℤ) ∈ xValsOf recent :=
      List.mem_map.mpr ⟨a, ha, rfl⟩
    have hd0b : (b.1 - (recent.headD (0, 0)).1 : ℤ) ∈ xValsOf recent :=
      List.mem_map.mpr ⟨b, hb, rfl⟩
    have hxy : (a.1 - (recent.headD (0, 0)).1 : ℤ) ≠ b.1 - (recent.headD (0, 0)).1 := by
      intro h
      exact hab (by linarith [sub_left_injective.eq_iff.mp h])
    have hkey : ∃ x ∈ xValsOf recent, ((x : ℚ) - xMeanOf recent) ^ 2 ≠ 0 := by
      by_cases hca : ((a.1 - (recent.headD (0, 0)).1 : ℤ) : ℚ) = xMeanOf recent
      · refine ⟨_, hd0b, ?_⟩
        intro h
        have : ((b.1 - (recent.headD (0, 0)).1 : ℤ) : ℚ) = xMeanOf recent := by
          have := pow_eq_zero_iff two_ne_zero |>.mp h
          linarith [sub_eq_zero.mp this]
        have : ((a.1 - (recent.headD (0, 0)).1 : ℤ) : ℚ)
            = ((b.1 - (recent.headD (0, 0)).1 : ℤ) : ℚ) := by rw [hca, this]
        exact hxy (Int.cast_injective this)
      · refine ⟨_, hd0a, ?_⟩
        intro h
        have := pow_eq_zero_iff two_ne_zero |>.mp h
        exact hca (by linarith [sub_eq_zero.mp this])
    rcases hkey with ⟨x, hx, hxne⟩
    have hterm : (0 : ℚ) < ((x : ℚ) - xMeanOf recent) ^ 2 :=
      lt_of_le_of_ne (sq_nonneg _) (Ne.symm hxne)
    have hpos : 0 < slopeDen recent := by
      rw [slopeDen]
      apply list_sum_pos_q _ _ (((x : ℚ) - xMeanOf recent) ^ 2) _ hterm
      · intro z hz
        rcases List.mem_map.mp hz with ⟨w, _, hw⟩
        rw [← hw]
        exact sq_nonneg _
      · exact List.mem_map_of_mem _ hx
    exact ne_of_gt hpos

/-- Claim C4: `evaluate_anomaly` is total, and its fallback chain is: a missing
`(lead, weekday)` bucket falls back to the first bucket sharing the same lead,
and if no bucket with that lead exists at all, to median 0 and scale 1. -/
theorem evaluate_anomaly_fallback_chain (observed : ℤ)
    (baseline : List ((ℤ × ℤ) × (ℚ × ℚ × ℕ))) (lead weekday : ℤ) (t : ℚ) :
    (∀ v, alistLookup baseline (lead, weekday) = none →
      (baseline.filter (fun kv => decide (kv.1.1 = lead))).head? = some v →
      (evaluate_anomaly observed baseline lead weekday t).baseline = v.2.1 ∧
      (evaluate_anomaly observed baseline lead weekday t).scale = v.2.2.1) ∧
    (alistLookup baseline (lead, weekday) = none →
      (baseline.filter (fun kv => decide (kv.1.1 = lead))).head? = none →
      (evaluate_anomaly observed baseline lead weekday t).baseline = 0 ∧
      (evaluate_anomaly observed baseline lead weekday t).scale = 1) := by
  constructor
  · intro v h1 h2
    constructor <;> simp [evaluate_anomaly, h1, h2]
  · intro h1 h2
    constructor <;> simp [evaluate_anomaly, h1, h2]

/-- Claim C7 (amended with a non-negative threshold): the anomaly flag is
"low" exactly when the z-score is strictly below `-t`, "high" exactly when
strictly above `t`, and a z-score equal to `t` or `-t` is "normal". -/
theorem evaluate_anomaly_strict_threshold (observed : ℤ)
    (baseline : List ((ℤ × ℤ) × (ℚ × ℚ × ℕ))) (lead weekday : ℤ) (t : ℚ)
    (ht : 0 ≤ t) :
    ((evaluate_anomaly observed baseline lead weekday t).flag = "low" ↔
      (evaluate_anomaly observed baseline lead weekday t).z_score < -t) ∧
    ((evaluate_anomaly observed baseline lead weekday t).flag = "high" ↔
      t < (evaluate_anomaly observed baseline lead weekday t).z_score) ∧
    ((evaluate_anomaly observed baseline lead weekday t).z_score = t ∨
      (evaluate_anomaly observed baseline lead weekday t).z_score = -t →
      (evaluate_anomaly observed baseline lead weekday t).flag = "normal") := by
  have hflag : (evaluate_anomaly observed baseline lead weekday t).flag =
      (if (evaluate_anomaly observed baseline lead weekday t).z_score < -t then "low"
       else if t < (evaluate_anomaly observed baseline lead weekday t).z_score then "high"
       else "normal") := rfl
  set z := (evaluate_anomaly observed baseline lead weekday t).z_score with hzdef
  by_cases hlow : z < -t
  · rw [hflag, if_pos hlow]
    refine ⟨by simp [hlow], ?_, ?_⟩
    · constructor
      · intro h
        exact absurd h (by decide)
      · intro h
        linarith
    · rintro (h | h) <;> linarith
  · rw [hflag, if_neg hlow]
    by_cases hhigh : t < z
    · rw [if_pos hhigh]
      refine ⟨?_, by simp [hhigh], ?_⟩
      · constructor
        · intro h
          exact absurd h (by decide)
        · intro h
          exact absurd h hlow
      · rintro (h | h) <;> linarith
    · rw [if_neg hhigh]
      refine ⟨?_, ?_, fun _ => rfl⟩
      · constructor
        · intro h
          exact absurd h (by decide)
        · intro h
          exact absurd h hlow
      · constructor
        · intro h
          exact absurd h (by decide)
        · intro h
          exact absurd h hhigh

/-- Claim C8: `build_historical_baselines` depends only on the records whose
`parse_date` is strictly before the cutoff: record sets agreeing there give
identical velocity and availability baselines. -/
theorem build_historical_baselines_causal (recs1 recs2 : List SnapshotRecord)
    (cutoff : ℤ)
    (h : recs1.filter (fun r => decide (r.parse_date < cutoff)) =
         recs2.filter (fun r => decide (r.parse_date < cutoff))) :
    build_historical_baselines recs1 cutoff = build_historical_baselines recs2 cutoff := by
  rw [build_historical_baselines, build_historical_baselines, h]

lemma pyTailSlice_length_self {α : Type} (l : List α) :
    pyTailSlice l (l.length : ℤ) = l := by
  rw [pyTailSlice]
  rcases Nat.eq_zero_or_pos l.length with h | h
  · rw [if_neg (by omega)]
    simp [h]
  · rw [if_pos (by omega)]
    have : (max 0 ((l.length : ℤ) + -(l.length : ℤ))).toNat = 0 := by omega
    rw [this, List.drop_zero]

lemma windowLast_of_le (k : ℕ) (p : List (ℤ × ℤ)) (h : p.length ≤ k) :
    windowLast k p = p := by
  rw [windowLast]
  have : min (p.length : ℤ) (k : ℤ) = (p.length : ℤ) := by omega
  rw [this, pyTailSlice_length_self]

lemma pyTailSlice_length_of_le {α : Type} (l : List α) (k : ℤ) (h0 : 0 < k)
    (h : k ≤ (l.length : ℤ)) : (pyTailSlice l k).length = k.toNat := by
  rw [pyTailSlice, if_pos (by omega)]
  rw [List.length_drop]
  omega

lemma length_windowLast (k : ℕ) (p : List (ℤ × ℤ)) (hk : 0 < k) :
    (windowLast k p).length = min p.length k := by
  rcases le_or_lt p.length k with h | h
  · rw [windowLast_of_le k p h]
    omega
  · rw [windowLast]
    have hmin : min (p.length : ℤ) (k : ℤ) = (k : ℤ) := by omega
    rw [hmin, pyTailSlice_length_of_le _ _ (by omega) (by omega)]
    omega

lemma recentOf_eq_windowLast (p : List (ℤ × ℤ)) : recentOf p 7 = windowLast 7 p := by
  rw [recentOf, windowLast]
  norm_num

lemma recentOf_windowLast_self (p : List (ℤ × ℤ)) :
    recentOf (windowLast 7 p) 7 = windowLast 7 p := by
  rw [recentOf]
  have h7 : ((windowLast 7 p).length : ℤ) ≤ 7 := by
    rw [length_windowLast 7 p (by norm_num)]
    omega
  have : min ((windowLast 7 p).length : ℤ) 7 = ((windowLast 7 p).length : ℤ) := by omega
  rw [this, pyTailSlice_length_self]

/-- Claim C3 (amended): `analyze_pickup_issues` computes the current velocity
as the OLS slope over the trailing window of at most the 7 most recent
progression points including the current one (`window_days=7`), not 5. -/
theorem analyze_velocity_window7 (p : List (ℤ × ℤ)) :
    analyzeRecentVelocity p = compute_pickup_velocity (windowLast 7 p) 7 := by
  by_cases hlen : p.length < 2
  · rw [analyzeRecentVelocity, windowLast_of_le 7 p (by omega)]
  · have hw2 : ¬ (windowLast 7 p).length < 2 := by
      rw [length_windowLast 7 p (by norm_num)]
      omega
    have hidem : windowLast 7 (windowLast 7 p) = windowLast 7 p := by
      rw [← recentOf_eq_windowLast]
      exact recentOf_windowLast_self p
    rw [analyzeRecentVelocity, compute_pickup_velocity, compute_pickup_velocity,
      if_neg hlen, if_neg hw2]
    simp only [recentOf_eq_windowLast, hidem]

lemma listSum?_eq_some (l : List ℤ) (t : ℤ) (h : listSum? l = some t) : t = l.sum := by
  cases l with
  | nil => cases h
  | cons x xs =>
      simp only [listSum?, Option.some.injEq] at h
      rw [← h, List.sum_cons]

lemma filter_map_entries {κ ν γ : Type} :
    ∀ (es : List (κ × ν)) (valFn : κ → ν) (Q : κ → Bool) (F : κ → ν → γ),
      (∀ e ∈ es, e.2 = valFn e.1) →
      (es.filter (fun e => Q e.1)).map (fun e => F e.1 e.2)
        = ((es.map Prod.fst).filter Q).map (fun k => F k (valFn k))
  | [], _, _, _, _ => rfl
  | e :: es, valFn, Q, F, h => by
      have he : e.2 = valFn e.1 := h e (List.mem_cons_self e es)
      have ih := filter_map_entries es valFn Q F (fun x hx => h x (List.mem_cons_of_mem e hx))
      by_cases hq : Q e.1
      · simp only [List.filter_cons, List.map_cons, hq, if_pos, List.map]
        rw [← he, ih]
      · simp only [List.filter_cons, List.map_cons, hq, if_neg, Bool.false_eq_true,
          not_false_iff]
        exact ih

lemma maxAvailByKey_lookup (records : List SnapshotRecord) (k : ℤ × ℤ × ℤ) :
    alistLookup (maxAvailByKey records) k =
      listMax? ((records.filter
        (fun r => decide ((r.check_in_date, r.parse_date, r.room_id) = k))).map
        (fun r => r.availability)) := by
  have h := alistLookup_foldl_maxStep
    (fun r : SnapshotRecord => (r.check_in_date, r.parse_date, r.room_id))
    (fun r : SnapshotRecord => r.availability) records [] k
  simpa [maxAvailByKey, alistLookup, optMax] using h

lemma maxAvailByKey_keys_nodup (records : List SnapshotRecord) :
    (alistKeys (maxAvailByKey records)).Nodup :=
  alistKeys_nodup_foldl_maxStep _ _ records [] List.nodup_nil

lemma mem_maxAvailByKey_keys (records : List SnapshotRecord) (k : ℤ × ℤ × ℤ) :
    k ∈ alistKeys (maxAvailByKey records) ↔
      ∃ r ∈ records, (r.check_in_date, r.parse_date, r.room_id) = k := by
  have h := mem_alistKeys_foldl_maxStep
    (fun r : SnapshotRecord => (r.check_in_date, r.parse_date, r.room_id))
    (fun r : SnapshotRecord => r.availability) records [] k
  simpa [maxAvailByKey] using h

lemma aggregate_lookup (records : List SnapshotRecord) (ci pd : ℤ) :
    alistLookup (aggregate_total_availability records) (ci, pd) =
      listSum? (((maxAvailByKey records).filter
        (fun kv => decide ((kv.1.1, kv.1.2.1) = (ci, pd)))).map
        (fun kv => max 0 kv.2)) := by
  have h := alistLookup_foldl_addStep
    (fun kv : (ℤ × ℤ × ℤ) × ℤ => (kv.1.1, kv.1.2.1))
    (fun kv : (ℤ × ℤ × ℤ) × ℤ => max 0 kv.2) (maxAvailByKey records) [] (ci, pd)
  simpa [aggregate_total_availability, alistLookup, optPlus] using h

lemma aggregate_lookup_sum (records : List SnapshotRecord)
    (ci pd t : ℤ)
    (h : alistLookup (aggregate_total_availability records) (ci, pd) = some t) :
    t = ∑ rm ∈ roomsFinset records ci pd, max 0 (maxSeen records ci pd rm) ∧ 0 ≤ t := by
  have hval : ∀ e ∈ maxAvailByKey records, e.2 =
      (alistLookup (maxAvailByKey records) e.1).getD 0 := by
    intro e he
    rw [mem_alist_of_nodup_lookup (maxAvailByKey records) e.1 e.2
      (maxAvailByKey_keys_nodup records) he]
    rfl
  rw [aggregate_lookup records ci pd] at h
  have hsum := listSum?_eq_some _ _ h
  rw [filter_map_entries (maxAvailByKey records)
    (fun k => (alistLookup (maxAvailByKey records) k).getD 0)
    (fun k => decide ((k.1, k.2.1) = (ci, pd)))
    (fun _ v => max 0 v) (by exact hval)] at hsum
  have hkeysnd : ((alistKeys (maxAvailByKey records)).filter
      (fun k => decide ((k.1, k.2.1) = (ci, pd)))).Nodup :=
    (maxAvailByKey_keys_nodup records).filter _
  have hfinset : ((alistKeys (maxAvailByKey records)).filter
        (fun k => decide ((k.1, k.2.1) = (ci, pd)))).toFinset =
      Finset.image (fun rm => (ci, pd, rm)) (roomsFinset records ci pd) := by
    ext k
    simp only [List.mem_toFinset, List.mem_filter, Finset.mem_image, roomsFinset,
      List.mem_map, decide_eq_true_eq]
    constructor
    · rintro ⟨hk, hmatch⟩
      rcases (mem_maxAvailByKey_keys records k).mp hk with ⟨r, hr, htriple⟩
      have hci : k.1 = ci := by
        have := congrArg Prod.fst hmatch
        simpa using this
      have hpd : k.2.1 = pd := by
        have := congrArg Prod.snd hmatch
        simpa using this
      have h1 : r.check_in_date = k.1 := by rw [← htriple]
      have h2 : r.parse_date = k.2.1 := by rw [← htriple]
      refine ⟨k.2.2, ⟨r, ⟨hr, h1.trans hci, h2.trans hpd⟩, ?_⟩, ?_⟩
      · rw [← htriple]
      · calc (ci, pd, k.2.2) = (k.1, k.2.1, k.2.2) := by rw [hci, hpd]
          _ = k := rfl
    · rintro ⟨rm, ⟨r, ⟨hr, hcir, hpdr⟩, hrm⟩, hk⟩
      constructor
      · apply (mem_maxAvailByKey_keys records k).mpr
        refine ⟨r, hr, ?_⟩
        rw [← hk, hcir, hpdr, hrm]
      · rw [← hk]
  have hinj : ∀ x ∈ roomsFinset records ci pd, ∀ y ∈ roomsFinset records ci pd,
      (fun rm => ((ci, pd, rm) : ℤ × ℤ × ℤ)) x = (fun rm => ((ci, pd, rm) : ℤ × ℤ × ℤ)) y →
      x = y := by
    intro x _ y _ hxy
    simpa using hxy
  have hmaxseen : ∀ rm, (alistLookup (maxAvailByKey records) (ci, pd, rm)).getD 0 =
      maxSeen records ci pd rm := by
    intro rm
    rw [maxAvailByKey_lookup, maxSeen]
    congr 2
    apply congrArg
    apply List.filter_congr
    intro r _
    apply decide_eq_decide.mpr
    constructor
    · intro hp
      refine ⟨?_, ?_, ?_⟩
      · have := congrArg Prod.fst hp
        simpa using this
      · have := congrArg (fun q : ℤ × ℤ × ℤ => q.2.1) hp
        simpa using this
      · have := congrArg (fun q : ℤ × ℤ × ℤ => q.2.2) hp
        simpa using this
    · rintro ⟨h1, h2, h3⟩
      rw [h1, h2, h3]
  have hkeys_eq : List.map Prod.fst (maxAvailByKey records) =
      alistKeys (maxAvailByKey records) := rfl
  rw [hkeys_eq] at hsum
  have : t = ∑ rm ∈ roomsFinset records ci pd, max 0 (maxSeen records ci pd rm) := by
    rw [hsum, ← List.sum_toFinset _ hkeysnd, hfinset,
      Finset.sum_image hinj]
    apply Finset.sum_congr rfl
    intro rm _
    rw [hmaxseen rm]
  refine ⟨this, ?_⟩
  rw [this]
  apply Finset.sum_nonneg
  intro rm _
  exact le_max_left 0 _

lemma alistKeys_nodup_addStep {κ : Type} [DecidableEq κ] (m : List (κ × ℤ)) (k : κ) (v : ℤ)
    (h : (alistKeys m).Nodup) : (alistKeys (addStep m k v)).Nodup := by
  unfold addStep
  cases alistLookup m k with
  | none => exact alistKeys_nodup_alistSet m k v h
  | some cur => exact alistKeys_nodup_alistSet m k (cur + v) h

lemma alistKeys_nodup_foldl_addStep {β κ : Type} [DecidableEq κ] (fk : β → κ) (fv : β → ℤ) :
    ∀ (qs : List β) (m : List (κ × ℤ)), (alistKeys m).Nodup →
      (alistKeys (qs.foldl (fun acc q => addStep acc (fk q) (fv q)) m)).Nodup
  | [], _, h => h
  | q :: qs, m, h => by
      simp only [List.foldl_cons]
      exact alistKeys_nodup_foldl_addStep fk fv qs _ (alistKeys_nodup_addStep m _ _ h)

lemma aggregate_keys_nodup (records : List SnapshotRecord) :
    (alistKeys (aggregate_total_availability records)).Nodup :=
  alistKeys_nodup_foldl_addStep
    (fun kv : (ℤ × ℤ × ℤ) × ℤ => (kv.1.1, kv.1.2.1))
    (fun kv : (ℤ × ℤ × ℤ) × ℤ => max 0 kv.2) (maxAvailByKey records) [] List.nodup_nil

/-- Claim C5: every entry of the totals table produced by
`aggregate_total_availability` equals, for its (check-in date, observation
date) key, the sum over the cell's rooms of `max(0, maximum availability seen
for that room)`, and is non-negative. -/
theorem aggregate_total_availability_room_max_sum (records : List SnapshotRecord) :
    ∀ kv ∈ aggregate_total_availability records,
      kv.2 = ∑ rm ∈ roomsFinset records kv.1.1 kv.1.2,
          max 0 (maxSeen records kv.1.1 kv.1.2 rm) ∧ 0 ≤ kv.2 := by
  intro kv hkv
  have hlook : alistLookup (aggregate_total_availability records) (kv.1.1, kv.1.2) =
      some kv.2 := by
    have := mem_alist_of_nodup_lookup (aggregate_total_availability records) kv.1 kv.2
      (aggregate_keys_nodup records) hkv
    simpa using this
  exact aggregate_lookup_sum records kv.1.1 kv.1.2 kv.2 hlook

/-- Claim C1 (counterexample): on the spec's end-to-end example the predicted
curve is not the claimed `(3,10),(2,11),(1,13),(0,15)`. -/
theorem predict_curve_example_spec_value_false :
    predict_curve_from exampleLt examplePickup d20250513 3 ≠
      [(3, (10 : ℚ)), (2, 11), (1, 13), (0, 15)] := by
  have h2 : alistLookup exampleLt (d20250513, 3) = some 10 := by decide
  have h3 : weekday_of d20250513 = 1 := by decide
  have h4 : pyRangeDown 3 = [3, 2, 1] := by decide
  have d3 : pickupDelta examplePickup 1 3 = 0 := by decide
  have d2 : pickupDelta examplePickup 1 2 = -2 := by decide
  have d1 : pickupDelta examplePickup 1 1 = -2 := by decide
  rw [predict_curve_from, h2, h3, h4]
  simp only [List.foldl_cons, List.foldl_nil, predictStep, d3, d2, d1]
  norm_num [max_def]

/-- Claim C1 (amended, actual behaviour): on the example the code computes
pickup deltas `-2` for bucket `(2, Tue)` and `-2` for bucket `(1, Tue)` (no
bucket for lead 3), and the predicted curve from lead 3 with observed 10 is
`(3,10),(2,10),(1,8),(0,6)`. -/
theorem pipeline_example_actual_values :
    examplePickup = [((2, 1), (-2 : ℚ)), ((1, 1), -2)] ∧
    predict_curve_from exampleLt examplePickup d20250513 3 =
      [(3, (10 : ℚ)), (2, 10), (1, 8), (0, 6)] := by
  constructor
  · decide
  · have h2 : alistLookup exampleLt (d20250513, 3) = some 10 := by decide
    have h3 : weekday_of d20250513 = 1 := by decide
    have h4 : pyRangeDown 3 = [3, 2, 1] := by decide
    have d3 : pickupDelta examplePickup 1 3 = 0 := by decide
    have d2 : pickupDelta examplePickup 1 2 = -2 := by decide
    have d1 : pickupDelta examplePickup 1 1 = -2 := by decide
    rw [predict_curve_from, h2, h3, h4]
    simp only [List.foldl_cons, List.foldl_nil, predictStep, d3, d2, d1]
    norm_num [max_def]

/-- Claim C2 (the code's off-by-one at the trajectory boundary): a trajectory
observing exactly leads 3 and 2 (one day apart) yields an empty pickup table,
although the docstring semantics demand the delta `A(2) - A(3) = -1` in
bucket `(3, weekday)`; the guard also requires lead 4 to be present. -/
theorem pickup_curve_missing_boundary_delta :
    compute_pickup_curve [((d20250513, 3), 10), ((d20250513, 2), 9)] = [] := by
  decide

/-- Claim C3 (counterexample): `analyze_pickup_issues` does not use the
training window of at most 5 points — on a 6-point progression its velocity
(slope over all 6 points, -96/7) differs from the 5-point slope (0). -/
theorem analyze_velocity_window5_false :
    analyzeRecentVelocity exampleProgression ≠
      compute_pickup_velocity (windowLast 5 exampleProgression) 7 := by
  have hA : analyzeRecentVelocity exampleProgression = -96/7 := by
    have h7 : recentOf exampleProgression 7 = exampleProgression := by decide
    have hx : xValsOf exampleProgression = [0, 1, 2, 3, 4, 5] := by decide
    have hy : yValsOf exampleProgression = [96, 0, 0, 0, 0, 0] := by decide
    have hl : exampleProgression.length = 6 := by decide
    have hd : (xValsOf exampleProgression).dedup.length = 6 := by rw [hx]; decide
    rw [analyzeRecentVelocity, compute_pickup_velocity]
    rw [if_neg (by rw [hl]; norm_num)]
    simp only [h7, hl, hd]
    rw [if_neg (by norm_num), if_neg (by norm_num)]
    have hden : slopeDen exampleProgression = 35/2 := by
      rw [slopeDen, xMeanOf, hx, hl]
      norm_num [List.map_cons, List.map_nil, List.sum_cons, List.sum_nil]
    have hnum : slopeNum exampleProgression = -240 := by
      rw [slopeNum, xMeanOf, yMeanOf, hx, hy, hl]
      norm_num [List.map_cons, List.map_nil, List.sum_cons, List.sum_nil,
        List.zip, List.zipWith]
    rw [if_pos (by rw [hden]; norm_num), hden, hnum]
    norm_num
  have hB : compute_pickup_velocity (windowLast 5 exampleProgression) 7 = 0 := by
    have h5 : windowLast 5 exampleProgression = [(1, 0), (2, 0), (3, 0), (4, 0), (5, 0)] := by
      decide
    rw [h5, compute_pickup_velocity]
    rw [if_neg (by norm_num)]
    have h7 : recentOf [((1:ℤ), (0:ℤ)), (2, 0), (3, 0), (4, 0), (5, 0)] 7 =
        [(1, 0), (2, 0), (3, 0), (4, 0), (5, 0)] := by decide
    have hx : xValsOf [((1:ℤ), (0:ℤ)), (2, 0), (3, 0), (4, 0), (5, 0)] = [0, 1, 2, 3, 4] := by
      decide
    have hd : (xValsOf [((1:ℤ), (0:ℤ)), (2, 0), (3, 0), (4, 0), (5, 0)]).dedup.length = 5 := by
      rw [hx]; decide
    simp only [h7, hd]
    rw [if_neg (by norm_num), if_neg (by norm_num)]
    have hden : slopeDen [((1:ℤ), (0:ℤ)), (2, 0), (3, 0), (4, 0), (5, 0)] = 10 := by
      rw [slopeDen, xMeanOf, hx]
      norm_num [List.map_cons, List.map_nil, List.sum_cons, List.sum_nil]
    have hnum : slopeNum [((1:ℤ), (0:ℤ)), (2, 0), (3, 0), (4, 0), (5, 0)] = 0 := by
      rw [slopeNum, xMeanOf, yMeanOf, hx]
      norm_num [List.map_cons, List.map_nil, List.sum_cons, List.sum_nil,
        List.zip, List.zipWith, yValsOf]
    rw [if_pos (by rw [hden]; norm_num), hden, hnum]
    norm_num
  rw [hA, hB]
  norm_num

/-- Claim C7 (counterexample): with the negative threshold `t = -1` and an
observed value of `-1` against the hard-fallback baseline, the z-score equals
the threshold exactly, yet the flag is "low", not "normal". -/
theorem evaluate_anomaly_negative_threshold_boundary :
    (evaluate_anomaly (-1) [] 0 0 (-1)).z_score = (-1 : ℚ) ∧
    (evaluate_anomaly (-1) [] 0 0 (-1)).flag = "low" := by
  constructor
  · show ((((-1 : ℤ) : ℚ) - 0) / (if (0 : ℚ) < 1 then 1 else 1)) = (-1 : ℚ)
    norm_num
  · show (if ((((-1 : ℤ) : ℚ) - 0) / (if (0 : ℚ) < 1 then 1 else 1)) < -(-1 : ℚ)
        then "low"
        else if (-1 : ℚ) < ((((-1 : ℤ) : ℚ) - 0) / (if (0 : ℚ) < 1 then 1 else 1))
        then "high" else "normal") = "low"
    rw [if_pos (by norm_num)]

/-- Witness for the `evaluate_anomaly` fallback chain: a table holding only a
Monday bucket at lead 5 serves a Tuesday query at lead 5, and the empty table
yields median 0 and scale 1. -/
theorem evaluate_anomaly_fallback_chain_witness :
    ((evaluate_anomaly 4 [((5, 0), ((7 : ℚ), (2 : ℚ), 3))] 5 1 2).baseline = 7 ∧
     (evaluate_anomaly 4 [((5, 0), ((7 : ℚ), (2 : ℚ), 3))] 5 1 2).scale = 2) ∧
    ((evaluate_anomaly 4 [] 5 1 2).baseline = 0 ∧
     (evaluate_anomaly 4 [] 5 1 2).scale = 1) :=
  ⟨(evaluate_anomaly_fallback_chain 4 [((5, 0), ((7 : ℚ), (2 : ℚ), 3))] 5 1 2).1
      ((5, 0), ((7 : ℚ), (2 : ℚ), 3)) (by decide) (by decide),
   (evaluate_anomaly_fallback_chain 4 [] 5 1 2).2 rfl rfl⟩

/-- Witness for the strict-threshold classification at the default threshold
2.0: observed 5 against the hard-fallback baseline has z-score 5 and must be
flagged "high". -/
theorem evaluate_anomaly_strict_threshold_witness :
    (0 : ℚ) ≤ 2 ∧
    (((evaluate_anomaly 5 [] 0 0 2).flag = "low" ↔
        (evaluate_anomaly 5 [] 0 0 2).z_score < -2) ∧
     ((evaluate_anomaly 5 [] 0 0 2).flag = "high" ↔
        2 < (evaluate_anomaly 5 [] 0 0 2).z_score) ∧
     ((evaluate_anomaly 5 [] 0 0 2).z_score = 2 ∨
        (evaluate_anomaly 5 [] 0 0 2).z_score = -2 →
        (evaluate_anomaly 5 [] 0 0 2).flag = "normal")) :=
  ⟨by norm_num, evaluate_anomaly_strict_threshold 5 [] 0 0 2 (by norm_num)⟩

/-- Witness for the room-max aggregation: the repository test's fixture (two
rows for room 1 with availabilities 2 and 3, one row for room 2 with 5) has
total 8 = 3 + 5. -/
theorem aggregate_total_availability_room_max_sum_witness :
    (8 : ℤ) = ∑ rm ∈ roomsFinset
        [⟨739025, 739015, 0, 1, 2⟩, ⟨739025, 739015, 0, 1, 3⟩, ⟨739025, 739015, 0, 2, 5⟩]
        739025 739015,
      max 0 (maxSeen
        [⟨739025, 739015, 0, 1, 2⟩, ⟨739025, 739015, 0, 1, 3⟩, ⟨739025, 739015, 0, 2, 5⟩]
        739025 739015 rm) ∧ (0 : ℤ) ≤ 8 :=
  aggregate_total_availability_room_max_sum
    [⟨739025, 739015, 0, 1, 2⟩, ⟨739025, 739015, 0, 1, 3⟩, ⟨739025, 739015, 0, 2, 5⟩]
    ((739025, 739015), 8) (by decide)

/-- Witness for the snapshot reducer: of two same-day scrapes at timestamps 10
and 12, the kept record carries the day's maximum timestamp 12, and the
reduction is idempotent on this input. -/
theorem select_latest_snapshot_idempotent_max_witness :
    some (12 : ℤ) = listMax? (creationsOf
      [⟨739060, 739050, 10, 1, 2⟩, ⟨739060, 739050, 12, 1, 3⟩, ⟨739061, 739051, 9, 2, 4⟩]
      739050) ∧
    select_latest_snapshot_per_parse_day (select_latest_snapshot_per_parse_day
      [⟨739060, 739050, 10, 1, 2⟩, ⟨739060, 739050, 12, 1, 3⟩, ⟨739061, 739051, 9, 2, 4⟩]) =
    select_latest_snapshot_per_parse_day
      [⟨739060, 739050, 10, 1, 2⟩, ⟨739060, 739050, 12, 1, 3⟩, ⟨739061, 739051, 9, 2, 4⟩] :=
  ⟨(select_latest_snapshot_idempotent_max
      [⟨739060, 739050, 10, 1, 2⟩, ⟨739060, 739050, 12, 1, 3⟩, ⟨739061, 739051, 9, 2, 4⟩]).1
      ⟨739060, 739050, 12, 1, 3⟩ (by decide),
   (select_latest_snapshot_idempotent_max
      [⟨739060, 739050, 10, 1, 2⟩, ⟨739060, 739050, 12, 1, 3⟩, ⟨739061, 739051, 9, 2, 4⟩]).2.1⟩

/-- Witness for training causality: two record lists that differ only in rows
on/after the cutoff (date 10) produce identical baselines. -/
theorem build_historical_baselines_causal_witness :
    List.filter (fun r => decide (r.parse_date < 10))
        [(⟨20, 5, 1, 1, 3⟩ : SnapshotRecord), ⟨20, 15, 1, 1, 4⟩] =
      List.filter (fun r => decide (r.parse_date < 10))
        [(⟨20, 5, 1, 1, 3⟩ : SnapshotRecord), ⟨21, 12, 2, 9, 7⟩] ∧
    build_historical_baselines [(⟨20, 5, 1, 1, 3⟩ : SnapshotRecord), ⟨20, 15, 1, 1, 4⟩] 10 =
      build_historical_baselines [(⟨20, 5, 1, 1, 3⟩ : SnapshotRecord), ⟨21, 12, 2, 9, 7⟩] 10 :=
  ⟨by decide,
   build_historical_baselines_causal
     [⟨20, 5, 1, 1, 3⟩, ⟨20, 15, 1, 1, 4⟩] [⟨20, 5, 1, 1, 3⟩, ⟨21, 12, 2, 9, 7⟩] 10 (by decide)⟩

/-- Witness for the prediction floor: a series observing total 5 at lead 2
with pickup deltas of -100 still yields a non-negative expected value at the
element of index 1 of the rolled-down curve. -/
theorem predict_curve_from_nonneg_witness :
    (∀ kv ∈ [(((739384 : ℤ), (2 : ℤ)), (5 : ℤ))], 0 ≤ kv.2) ∧
    0 ≤ ((predict_curve_from [(((739384 : ℤ), (2 : ℤ)), (5 : ℤ))]
        [(((2 : ℤ), (1 : ℤ)), (-100 : ℚ)), (((1 : ℤ), (1 : ℤ)), (-100 : ℚ))]
        739384 2).getD 1 (0, 0)).2 :=
  ⟨by decide,
   predict_curve_from_nonneg [(((739384 : ℤ), (2 : ℤ)), (5 : ℤ))]
     [(((2 : ℤ), (1 : ℤ)), (-100 : ℚ)), (((1 : ℤ), (1 : ℤ)), (-100 : ℚ))] 739384 2
     (by decide) _ (by
       rw [List.getD_eq_getElem _ _ (by decide)]
       exact List.getElem_mem _)⟩

/-- Witness for the velocity guards: a single point gives velocity 0, two
same-day points give velocity 0, and two distinct-day points have a nonzero
OLS denominator. -/
theorem compute_pickup_velocity_guards_witness :
    compute_pickup_velocity [((0 : ℤ), (5 : ℤ))] 7 = 0 ∧
    compute_pickup_velocity [((0 : ℤ), (3 : ℤ)), (0, 9)] 7 = 0 ∧
    slopeDen (recentOf [((0 : ℤ), (1 : ℤ)), (1, 5)] 7) ≠ 0 :=
  ⟨(compute_pickup_velocity_guards [((0 : ℤ), (5 : ℤ))] 7).1 (by decide),
   (compute_pickup_velocity_guards [((0 : ℤ), (3 : ℤ)), (0, 9)] 7).2.1 (by decide),
   (compute_pickup_velocity_guards [((0 : ℤ), (1 : ℤ)), (1, 5)] 7).2.2 (by decide)⟩
